import Mathlib

/-!
Verification development for the `disastle-castle-rust` castle engine.

The Rust sources (src/lib.rs, src/room/connection.rs, src/room/mod.rs) are
embedded shallowly:

* machine integers (`u8` damage and link counters) are `Nat` with explicit
  `% 256` wherever the Rust arithmetic can wrap (release-mode semantics of
  `+=` / `-=` on `u8`);
* the `BTreeMap<Pos, PlacedRoom>` is an association list ordered by the
  lexicographic order on `Pos = (i8, i8)` (positions are modelled as
  `Int × Int`; the claims never touch the `i8` boundary);
* a Rust panic — including `.unwrap()` on an `Err` — is modelled by
  `Option`, with `none` standing for the panic;
* fallible operations return `Except CastleError`.
-/

namespace Disastle

/-- Edge connector of a room (src/room/connection.rs). -/
inductive Connection where
  | None
  | Wild
  | Diamond (power : Bool)
  | Cross (power : Bool)
  | Moon (power : Bool)
deriving DecidableEq, Repr

/-- Error taxonomy of the castle engine (src/error.rs). -/
inductive CastleError where
  | TakenPosition
  | EmptyPosition
  | InvalidConnection
  | InvalidPosition
  | NotOuterRoom
  | NotNearlyOuterRoom
  | MustDiscard
  | NoDamage
deriving DecidableEq, Repr

def Connection.isNone : Connection → Bool
  | Connection.None => true
  | _ => false

/-- `Connection::connect` (src/room/connection.rs lines 15-20). -/
def Connection.connect (a b : Connection) : Option Bool :=
  if a.isNone && b.isNone then none
  else some (!a.isNone && !b.isNone)

/-- `Connection::link` (src/room/connection.rs lines 24-41), with the match
arms in source order; the final catch-all returns `Ok(Connection::None)`. -/
def Connection.link (a b : Connection) : Except CastleError Connection :=
  match a, b with
  | Connection.Wild, Connection.Wild => Except.ok Connection.Wild
  | Connection.Wild, Connection.Diamond _ => Except.ok (Connection.Diamond true)
  | Connection.Wild, Connection.Cross _ => Except.ok (Connection.Cross true)
  | Connection.Wild, Connection.Moon _ => Except.ok (Connection.Moon true)
  | Connection.Diamond power, Connection.Wild => Except.ok (Connection.Diamond power)
  | Connection.Cross power, Connection.Wild => Except.ok (Connection.Cross power)
  | Connection.Moon power, Connection.Wild => Except.ok (Connection.Moon power)
  | Connection.Cross power, Connection.Cross _ => Except.ok (Connection.Cross power)
  | Connection.Diamond power, Connection.Diamond _ => Except.ok (Connection.Diamond power)
  | Connection.Moon power, Connection.Moon _ => Except.ok (Connection.Moon power)
  | Connection.None, Connection.None => Except.ok Connection.None
  | Connection.None, _ => Except.error CastleError.InvalidConnection
  | _, Connection.None => Except.error CastleError.InvalidConnection
  | _, _ => Except.ok Connection.None

/-- `Connection::power` (src/room/connection.rs lines 42-49). -/
def Connection.power : Connection → Bool
  | Connection.Diamond p => p
  | Connection.Cross p => p
  | Connection.Moon p => p
  | _ => false

/-- Connector of `Diamond`/`Cross`/`Moon` kind (a "typed" connector). -/
def Connection.isTyped : Connection → Bool
  | Connection.Diamond _ => true
  | Connection.Cross _ => true
  | Connection.Moon _ => true
  | _ => false

/-- Discriminant of the connector variant, ignoring the power payload. -/
def Connection.tag : Connection → Nat
  | Connection.None => 0
  | Connection.Wild => 1
  | Connection.Diamond _ => 2
  | Connection.Cross _ => 3
  | Connection.Moon _ => 4

/-- The canonical 4-tuple of connectors of a room, in direction order
north, east, south, west (`[Connection; 4]` in the Rust sources). -/
structure Conns where
  c0 : Connection
  c1 : Connection
  c2 : Connection
  c3 : Connection
deriving DecidableEq, Repr

/-- Array indexing `connections[i]`; the Rust indices are always in `0..4`
(they are produced as `i` or `(i + 2) % 4`), so we reduce the index mod 4. -/
def Conns.get (cs : Conns) (i : Nat) : Connection :=
  match i % 4 with
  | 0 => cs.c0
  | 1 => cs.c1
  | 2 => cs.c2
  | _ => cs.c3

/-- Cyclic shift of the 4-tuple by `n` steps: the slice-and-chain
`connections[4 - rotate_num ..] ++ connections[.. 4 - rotate_num]` of
`Room::get_connections` (src/room/mod.rs lines 17-27), written out for the
four possible values of `rotate_num`. -/
def Conns.shift (cs : Conns) (n : Nat) : Conns :=
  match n with
  | 0 => cs
  | 1 => ⟨cs.c3, cs.c0, cs.c1, cs.c2⟩
  | 2 => ⟨cs.c2, cs.c3, cs.c0, cs.c1⟩
  | 3 => ⟨cs.c1, cs.c2, cs.c3, cs.c0⟩
  | _ + 4 => cs

/-- Room template: the struct deserialized in src/lib.rs's tests
`{throne, name, treasure, rotation, connections}` (cf. `SimpleRoom` in
src/room/simple_room.rs). -/
structure Room where
  throne : Bool
  name : String
  treasure : Nat
  rotation : Nat
  connections : Conns
deriving DecidableEq, Repr

/-- Rotation-adjusted connectors for a given rotation: the algorithm of
`Room::get_connections` (src/room/mod.rs lines 17-27) applied to the
rotation passed by the caller (`Room::get_rotated_connections` as invoked
by `PlacedRoom::get_connections` in src/lib.rs line 39): floor the
rotation to a 90-degree increment of `0..360` and cyclically shift. -/
def Room.get_rotated_connections (r : Room) (rot : Nat) : Conns :=
  r.connections.shift ((rot % 360) / 90)

/-- Position on the grid, `(i8, i8)` in src/lib.rs line 16. -/
abbrev Pos := Int × Int

/-- `PlacedRoom` (src/lib.rs lines 19-41). -/
structure PlacedRoom where
  info : Room
  rotation : Nat
deriving DecidableEq, Repr

/-- `PlacedRoom::from` (src/lib.rs lines 26-31). -/
def PlacedRoom.ofRoom (room : Room) (rotation : Nat) : PlacedRoom :=
  { info := room, rotation := rotation }

/-- `PlacedRoom::rotate` (src/lib.rs lines 32-37): replaces the rotation. -/
def PlacedRoom.rotate (p : PlacedRoom) (rotation : Nat) : PlacedRoom :=
  { info := p.info, rotation := rotation }

/-- `PlacedRoom::get_connections` (src/lib.rs lines 38-40). -/
def PlacedRoom.get_connections (p : PlacedRoom) : Conns :=
  p.info.get_rotated_connections p.rotation

/-- Lexicographic order on positions: the derived `Ord` of `(i8, i8)`,
which is the `BTreeMap` key order. -/
def posLt (a b : Pos) : Bool :=
  decide (a.1 < b.1) || (decide (a.1 = b.1) && decide (a.2 < b.2))

/-- The `BTreeMap<Pos, PlacedRoom>` of a castle: an association list kept
sorted by `posLt` with unique keys. -/
abbrev RoomMap := List (Pos × PlacedRoom)

/-- `BTreeMap::get`. -/
def RoomMap.get (m : RoomMap) (p : Pos) : Option PlacedRoom :=
  match m with
  | [] => none
  | (q, r) :: rest => if q = p then some r else RoomMap.get rest p

/-- `BTreeMap::insert`: replaces the entry at an existing key, otherwise
inserts at the sorted place. -/
def RoomMap.insert (m : RoomMap) (p : Pos) (r : PlacedRoom) : RoomMap :=
  match m with
  | [] => [(p, r)]
  | (q, s) :: rest =>
    if p = q then (p, r) :: rest
    else if posLt p q then (p, r) :: (q, s) :: rest
    else (q, s) :: RoomMap.insert rest p r

/-- `BTreeMap::remove`: with unique keys, dropping every entry at the key. -/
def RoomMap.remove (m : RoomMap) (p : Pos) : RoomMap :=
  m.filter (fun e => decide (e.1 ≠ p))

/-- `BTreeMap::keys` in iteration order. -/
def RoomMap.keys (m : RoomMap) : List Pos :=
  m.map Prod.fst

/-- `Castle` (src/lib.rs lines 43-47); `damage` is a `u8` modelled as `Nat`
with `% 256` at every wrapping operation. -/
structure Castle where
  rooms : RoomMap
  damage : Nat
deriving DecidableEq, Repr

/-- `Action` (src/lib.rs lines 49-56). -/
inductive Action where
  | Place (room : Room) (pos : Pos) (rot : Nat)
  | Move (fromPos toPos : Pos) (rot : Nat)
  | Swap (pos1 pos2 : Pos)
  | Discard (poses : List Pos)
  | Damage (diamond cross moon : Nat)
deriving DecidableEq, Repr

/-- Wrapping `u8` addition. -/
def u8add (a b : Nat) : Nat := (a + b) % 256

/-- Wrapping `u8` subtraction (`a` already reduced below 256 in all uses). -/
def u8sub (a b : Nat) : Nat := (a + (256 - b % 256)) % 256

/-- Neighbor in direction `i` (north, east, south, west), the entries of
`connecting` (src/lib.rs lines 489-492). -/
def neighborPos (pos : Pos) (i : Nat) : Pos :=
  match i % 4 with
  | 0 => (pos.1, pos.2 - 1)
  | 1 => (pos.1 + 1, pos.2)
  | 2 => (pos.1, pos.2 + 1)
  | _ => (pos.1 - 1, pos.2)

/-- `connecting` (src/lib.rs lines 489-492). -/
def connecting (pos : Pos) : List Pos :=
  [neighborPos pos 0, neighborPos pos 1, neighborPos pos 2, neighborPos pos 3]

/-- The `connect` evaluation of `can_place_room` / `room_num_connected` at
one enumerated direction entry `(i, con_pos)`: `None` when the neighbor is
unoccupied or both facing connectors are `None`. -/
def entryEval (c : Castle) (room : PlacedRoom) (e : Nat × Pos) : Option Bool :=
  match RoomMap.get c.rooms e.2 with
  | some conRoom =>
    Connection.connect (room.get_connections.get e.1)
      (conRoom.get_connections.get ((e.1 + 2) % 4))
  | none => none

/-- The loop of `Castle::can_place_room` (src/lib.rs lines 424-442) over the
remaining enumerated directions, carrying the count of `Some(true)`
evaluations; a `Some(false)` evaluation sets `connect = false` and breaks,
making the overall result `false`. -/
def canPlaceLoop (c : Castle) (room : PlacedRoom) : List (Nat × Pos) → Nat → Bool
  | [], count => decide (0 < count)
  | e :: rest, count =>
    match entryEval c room e with
    | some isConnected =>
      if isConnected then canPlaceLoop c room rest (count + 1) else false
    | none => canPlaceLoop c room rest count

/-- `Castle::can_place_room` (src/lib.rs lines 424-442). -/
def Castle.can_place_room (c : Castle) (room : PlacedRoom) (pos : Pos) : Bool :=
  canPlaceLoop c room (connecting pos).enum 0

/-- The count of `room_num_connected` (src/lib.rs lines 446-464). -/
def connCount (c : Castle) (room : PlacedRoom) (pos : Pos) : Nat :=
  (connecting pos).enum.foldl
    (fun cnt e =>
      match entryEval c room e with
      | some true => cnt + 1
      | _ => cnt) 0

/-- `Castle::room_num_connected` (src/lib.rs lines 446-464). -/
def Castle.room_num_connected (c : Castle) (pos : Pos) : Except CastleError Nat :=
  match RoomMap.get c.rooms pos with
  | some room => Except.ok (connCount c room pos)
  | none => Except.error CastleError.EmptyPosition

/-- `Castle::room_is_outer` (src/lib.rs lines 443-445). -/
def Castle.room_is_outer (c : Castle) (pos : Pos) : Except CastleError Bool :=
  (c.room_num_connected pos).map (fun n => decide (n = 1))

/-- `self.rooms[p].info.throne` at a key of the map; the `none` branch is
unreachable in the Rust call sites (the index would panic there). -/
def Castle.throneAt (c : Castle) (p : Pos) : Bool :=
  match RoomMap.get c.rooms p with
  | some r => r.info.throne
  | none => false

/-- `self.room_is_outer(p).unwrap()` at a key of the map; the error branch
is unreachable in the Rust call sites. -/
def Castle.outerAt (c : Castle) (p : Pos) : Bool :=
  match c.room_is_outer p with
  | Except.ok b => b
  | Except.error _ => false

/-- `self.room_num_connected(p).unwrap()` at a key of the map; the error
branch is unreachable in the Rust call sites. -/
def Castle.nconnAt (c : Castle) (p : Pos) : Nat :=
  match c.room_num_connected p with
  | Except.ok n => n
  | Except.error _ => 0

/-- `Castle::is_lost` (src/lib.rs lines 64-67). -/
def Castle.is_lost (c : Castle) : Bool :=
  decide (c.rooms.length ≤ c.damage) || c.rooms.all (fun e => !e.2.info.throne)

/-- Tally one `link` result into the `(diamond, cross, moon, wild)` `u8`
counters of `get_links`. -/
def tallyLink (l : Connection) (acc : Nat × Nat × Nat × Nat) : Nat × Nat × Nat × Nat :=
  match l, acc with
  | Connection.Wild, (d, x, m, w) => (d, x, m, u8add w 1)
  | Connection.Diamond _, (d, x, m, w) => (u8add d 1, x, m, w)
  | Connection.Cross _, (d, x, m, w) => (d, u8add x 1, m, w)
  | Connection.Moon _, (d, x, m, w) => (d, x, u8add m 1, w)
  | Connection.None, acc => acc

/-- The inner loop of `get_links` at one occupied position: `none` models
the incorrectly-placed-room panic of the Rust source when `link` errs. -/
def linksAtPos (c : Castle) (pos : Pos) (room : PlacedRoom)
    (acc : Nat × Nat × Nat × Nat) : Option (Nat × Nat × Nat × Nat) :=
  (connecting pos).enum.foldl
    (fun oacc e =>
      oacc.bind (fun acc =>
        match RoomMap.get c.rooms e.2 with
        | some conRoom =>
          match Connection.link (room.get_connections.get e.1)
              (conRoom.get_connections.get ((e.1 + 2) % 4)) with
          | Except.ok l => some (tallyLink l acc)
          | Except.error _ => none
        | none => some acc))
    (some acc)

/-- `Castle::get_links` (src/lib.rs lines 68-94): every edge is counted from
both endpoints, so the final counts are halved; `none` models the panic on
an incorrectly placed room. -/
def Castle.get_links (c : Castle) : Option (Nat × Nat × Nat × Nat) :=
  (c.rooms.foldl (fun oacc e => oacc.bind (fun acc => linksAtPos c e.1 e.2 acc))
      (some (0, 0, 0, 0))).map
    (fun acc => (acc.1 / 2, acc.2.1 / 2, acc.2.2.1 / 2, acc.2.2.2 / 2))

/-- `Castle::action_place` (src/lib.rs lines 107-120). -/
def Castle.action_place (c : Castle) (room : Room) (pos : Pos) (rot : Nat) :
    Except CastleError Castle :=
  if 0 < c.damage then Except.error CastleError.MustDiscard
  else if (RoomMap.get c.rooms pos).isSome then Except.error CastleError.TakenPosition
  else if !(c.can_place_room (PlacedRoom.ofRoom room rot) pos) then
    Except.error CastleError.InvalidConnection
  else Except.ok { rooms := RoomMap.insert c.rooms pos (PlacedRoom.ofRoom room rot),
                   damage := c.damage }

/-- `Castle::action_move` (src/lib.rs lines 121-144). Note that the rotated
room is only used for the validity check: the room inserted at `toPos` is
the unrotated `room` removed from `fromPos`. -/
def Castle.action_move (c : Castle) (fromPos toPos : Pos) (rot : Nat) :
    Except CastleError Castle :=
  if 0 < c.damage then Except.error CastleError.MustDiscard
  else if fromPos = toPos then Except.error CastleError.InvalidPosition
  else
    match RoomMap.get c.rooms fromPos with
    | none => Except.error CastleError.EmptyPosition
    | some room =>
      if !(c.outerAt fromPos) then Except.error CastleError.NotOuterRoom
      else if (RoomMap.get c.rooms toPos).isSome then Except.error CastleError.TakenPosition
      else
        let removed : Castle := { rooms := RoomMap.remove c.rooms fromPos, damage := c.damage }
        if !(removed.can_place_room (room.rotate rot) toPos) then
          Except.error CastleError.InvalidConnection
        else Except.ok { rooms := RoomMap.insert removed.rooms toPos room,
                         damage := c.damage }

/-- `Castle::action_swap` (src/lib.rs lines 145-173): the two placement
checks are made sequentially, each against the castle with both rooms
removed and only the other leg of the swap already performed. -/
def Castle.action_swap (c : Castle) (pos1 pos2 : Pos) : Except CastleError Castle :=
  if 0 < c.damage then Except.error CastleError.MustDiscard
  else if pos1 = pos2 then Except.error CastleError.InvalidPosition
  else
    match RoomMap.get c.rooms pos1, RoomMap.get c.rooms pos2 with
    | some room1, some room2 =>
      let base := RoomMap.remove (RoomMap.remove c.rooms pos1) pos2
      let first : Castle := { rooms := RoomMap.insert base pos1 room2, damage := c.damage }
      if !(first.can_place_room room1 pos2) then Except.error CastleError.InvalidConnection
      else
        let second : Castle :=
          { rooms := RoomMap.insert (RoomMap.remove first.rooms pos1) pos2 room1,
            damage := c.damage }
        if !(second.can_place_room room2 pos1) then Except.error CastleError.InvalidConnection
        else Except.ok { rooms := RoomMap.insert second.rooms pos1 room2, damage := c.damage }
    | _, _ => Except.error CastleError.EmptyPosition

/-- `Castle::action_discard_one` (src/lib.rs lines 174-212). The damage
decrement is the wrapping `u8` subtraction `damage -= 1`; there is no
guard that `damage` is positive here. -/
def Castle.action_discard_one (c : Castle) (pos : Pos) : Except CastleError Castle :=
  if (RoomMap.get c.rooms pos).isNone then Except.error CastleError.EmptyPosition
  else if c.throneAt pos && decide (1 < c.rooms.length) then
    Except.error CastleError.NotOuterRoom
  else if 0 < ((RoomMap.keys c.rooms).filter
      (fun p => !c.throneAt p && c.outerAt p)).length then
    -- `outer_pos` of the Rust source: the non-throne outer keys
    if c.outerAt pos then
      Except.ok { rooms := RoomMap.remove c.rooms pos, damage := u8sub c.damage 1 }
    else Except.error CastleError.NotOuterRoom
  else if 0 < ((RoomMap.keys c.rooms).filter
      (fun p => !c.throneAt p && decide (c.nconnAt p ≤ 2))).length then
    -- `nearly_outer_pos` of the Rust source
    if c.nconnAt pos ≤ 2 then
      Except.ok { rooms := RoomMap.remove c.rooms pos, damage := u8sub c.damage 1 }
    else Except.error CastleError.NotNearlyOuterRoom
  else Except.error CastleError.MustDiscard

/-- `Castle::action_discard` (src/lib.rs lines 213-226). The final check
reads `self.damage` — the damage of the castle the action started from,
not of the castle produced by the discards. -/
def Castle.action_discard (c : Castle) (poses : List Pos) : Except CastleError Castle :=
  if c.damage = 0 then Except.error CastleError.NoDamage
  else
    (poses.foldlM (fun (castle : Castle) pos => castle.action_discard_one pos) c).bind
      (fun castle =>
        if 0 < c.damage then Except.error CastleError.MustDiscard
        else Except.ok castle)

/-- `Castle::action_damage` (src/lib.rs lines 227-247); `none` models the
`get_links` panic on an incorrectly placed room. All arithmetic is the
wrapping `u8` arithmetic of the Rust release build. -/
def Castle.action_damage (c : Castle) (diamondDamage crossDamage moonDamage : Nat) :
    Option Castle :=
  (c.get_links).map (fun links =>
    let diamondLink := links.1
    let crossLink := links.2.1
    let moonLink := links.2.2.1
    let wildLink := links.2.2.2
    let dmg1 := if diamondLink < diamondDamage
      then u8add c.damage (diamondDamage - diamondLink) else c.damage
    let dmg2 := if crossLink < crossDamage
      then u8add dmg1 (crossDamage - crossLink) else dmg1
    let dmg3 := if moonLink < moonDamage
      then u8add dmg2 (moonDamage - moonLink) else dmg2
    let dmg4 := if wildLink < dmg3 then u8sub dmg3 wildLink else dmg3
    if c.rooms.length ≤ dmg4 then
      { rooms := [], damage := u8sub dmg4 c.rooms.length }
    else { rooms := c.rooms, damage := dmg4 })

/-- `Castle::possible_discard` (src/lib.rs lines 350-374): the tiered
discard-eligibility rule. -/
def Castle.possible_discard (c : Castle) : List Pos :=
  if c.is_lost then []
  else if c.rooms.length = 1 then
    match c.rooms with
    | (p, _) :: _ => [p]
    | [] => []
  else if 0 < (c.rooms.filterMap
      (fun e => if c.outerAt e.1 && !e.2.info.throne then some e.1 else none)).length then
    -- the outer tier (`possible` after the first loop of the Rust source)
    c.rooms.filterMap
      (fun e => if c.outerAt e.1 && !e.2.info.throne then some e.1 else none)
  else
    c.rooms.filterMap
      (fun e => if decide (c.nconnAt e.1 ≤ 2) && !e.2.info.throne then some e.1 else none)

/-- One expansion layer of the discard-sequence search: for each eligible
position apply `action_discard_one` (the `.unwrap()` mapping to `none` on
an error, modelling the panic in `all_possible_discards`), recurse through
`rec`, and prepend the position to every returned sequence. -/
def expandWith (rec : Castle → Option (List (List Pos))) (c : Castle) :
    List Pos → Option (List (List Pos))
  | [] => some []
  | p :: ps =>
    match c.action_discard_one p with
    | Except.error _ => none
    | Except.ok c' =>
      match rec c', expandWith rec c ps with
      | some rs, some rest => some (rs.map (fun s => p :: s) ++ rest)
      | _, _ => none

/-- The worklist recursion of `Castle::all_possible_discards` (src/lib.rs
lines 325-349), written as a tree recursion: a popped state with damage 0
records its history, any other state is expanded by every eligible
discard. The fuel bounds the recursion depth; every successful discard
removes one room, so `rooms.length` fuel is enough and the `0` case is
never reached from `all_possible_discards`. -/
def goDiscards : Nat → Castle → Option (List (List Pos))
  | 0, _ => none
  | fuel + 1, c =>
    if c.damage = 0 then some [[]]
    else expandWith (goDiscards fuel) c c.possible_discard

/-- `Castle::all_possible_discards` (src/lib.rs lines 325-349): the queue is
seeded from the root castle's eligible discards without looking at the
root damage; `none` models the `.unwrap()` panic when a seeding discard
fails. The list order differs from the Rust stack's pop order; the
multiset of sequences is the same. -/
def Castle.all_possible_discards (c : Castle) : Option (List (List Pos)) :=
  expandWith (goDiscards c.rooms.length) c c.possible_discard

/-- Deduplicating accumulation, standing in for the `HashSet` of
`possible_placements`; the `HashSet` iteration order is unspecified, we
fix first-insertion order (no claim depends on the order). -/
def dedupAppend (acc : List Pos) (p : Pos) : List Pos :=
  if p ∈ acc then acc else acc ++ [p]

/-- `Castle::possible_placements` (src/lib.rs lines 375-385). -/
def Castle.possible_placements (c : Castle) (room : PlacedRoom) : List Pos :=
  ((RoomMap.keys c.rooms).flatMap
    (fun pos => (connecting pos).filter
      (fun conPos => (RoomMap.get c.rooms conPos).isNone && c.can_place_room room conPos))).foldl
    dedupAppend []

/-- `Castle::possible_moves` (src/lib.rs lines 386-401). -/
def Castle.possible_moves (c : Castle) (fromPos : Pos) (rotation : Nat) : List Pos :=
  match c.room_is_outer fromPos with
  | Except.error _ => []
  | Except.ok false => []
  | Except.ok true =>
    match RoomMap.get c.rooms fromPos with
    | none => []
    | some room =>
      let removed : Castle := { rooms := RoomMap.remove c.rooms fromPos, damage := c.damage }
      (removed.possible_placements (room.rotate rotation)).filter (fun toPos => toPos ≠ fromPos)

/-- `Castle::possible_swaps` (src/lib.rs lines 402-417): both placement
checks are made against the unmodified castle, with both rooms still in
their original positions. -/
def Castle.possible_swaps (c : Castle) (fromPos : Pos) : List Pos :=
  match RoomMap.get c.rooms fromPos with
  | none => []
  | some room1 =>
    c.rooms.filterMap (fun e =>
      if decide (fromPos ≠ e.1) && c.can_place_room room1 e.1 && c.can_place_room e.2 fromPos
      then some e.1 else none)

/-- `Castle::all_possible_placements` (src/lib.rs lines 289-297). -/
def Castle.all_possible_placements (c : Castle) (shop : List Room) : List (Nat × Pos) :=
  shop.enum.flatMap (fun e =>
    (c.possible_placements (PlacedRoom.ofRoom e.2 0)).map (fun pos => (e.1, pos)))

/-- `Castle::all_possible_moves` (src/lib.rs lines 298-310). -/
def Castle.all_possible_moves (c : Castle) : List (Pos × Pos) :=
  (RoomMap.keys c.rooms).flatMap (fun fromPos =>
    (c.possible_moves fromPos 0).map (fun toPos => (fromPos, toPos)))

/-- `Castle::all_possible_swaps` (src/lib.rs lines 311-324). -/
def Castle.all_possible_swaps (c : Castle) : List (Pos × Pos) :=
  (RoomMap.keys c.rooms).flatMap (fun pos1 =>
    (c.possible_swaps pos1).map (fun pos2 => (pos1, pos2)))

/-- A room value standing in for an out-of-range `shop[index]`; the indices
produced by `all_possible_placements` are always in range. -/
def dummyRoom : Room :=
  { throne := false, name := "", treasure := 0, rotation := 0,
    connections := ⟨Connection.None, Connection.None, Connection.None, Connection.None⟩ }

/-- `Castle::possible_actions` (src/lib.rs lines 257-279); `none` models the
panic that `all_possible_discards` can raise. -/
def Castle.possible_actions (c : Castle) (shop : List Room) : Option (List Action) :=
  if 0 < c.damage then
    (c.all_possible_discards).map (fun ds => ds.map Action.Discard)
  else
    some (((c.all_possible_placements shop).map
        (fun e => Action.Place (shop.getD e.1 dummyRoom) e.2 0)
      ++ (c.all_possible_moves).map (fun e => Action.Move e.1 e.2 0))
      ++ (c.all_possible_swaps).map (fun e => Action.Swap e.1 e.2))

/-- `Castle::apply` (src/lib.rs lines 248-256); the `Option` layer carries
the possible `get_links` panic of the `Damage` arm. -/
def Castle.apply (c : Castle) (action : Action) : Option (Except CastleError Castle) :=
  match action with
  | Action.Place room pos rot => some (c.action_place room pos rot)
  | Action.Move fromPos toPos rot => some (c.action_move fromPos toPos rot)
  | Action.Swap pos1 pos2 => some (c.action_swap pos1 pos2)
  | Action.Discard poses => some (c.action_discard poses)
  | Action.Damage diamond cross moon =>
    (c.action_damage diamond cross moon).map Except.ok

/-- The all-Wild throne room of the src/lib.rs tests. -/
def throneRoom : Room :=
  { throne := true, name := "", treasure := 0, rotation := 0,
    connections := ⟨Connection.Wild, Connection.Wild, Connection.Wild, Connection.Wild⟩ }

/-- A room with a single north `Cross` connector. -/
def crossRoom : Room :=
  { throne := false, name := "", treasure := 0, rotation := 0,
    connections := ⟨Connection.Cross false, Connection.None, Connection.None, Connection.None⟩ }

/-- A room with a single south `Moon` connector. -/
def moonRoom : Room :=
  { throne := false, name := "", treasure := 0, rotation := 0,
    connections := ⟨Connection.None, Connection.None, Connection.Moon false, Connection.None⟩ }

/-- A room with a north `Moon` and a south `Cross` connector. -/
def moonCrossRoom : Room :=
  { throne := false, name := "", treasure := 0, rotation := 0,
    connections := ⟨Connection.Moon false, Connection.None, Connection.Cross false,
                    Connection.None⟩ }

/-- Throne at the origin and a `crossRoom` just south of it, damage 1. -/
def castleTwoRooms : Castle :=
  { rooms := [(((0 : Int), (0 : Int)), PlacedRoom.ofRoom throneRoom 0),
              (((0 : Int), (1 : Int)), PlacedRoom.ofRoom crossRoom 0)],
    damage := 1 }

/-- The `connect` evaluation of `can_place_room` in direction `i` of `pos`:
`none` when the neighbor in direction `i` is unoccupied or both facing
connectors are `None`. -/
def dirEval (c : Castle) (room : PlacedRoom) (pos : Pos) (i : Nat) : Option Bool :=
  match RoomMap.get c.rooms (neighborPos pos i) with
  | some conRoom =>
    Connection.connect (room.get_connections.get i)
      (conRoom.get_connections.get ((i + 2) % 4))
  | none => none

/-- Whether an `Except` result is `Ok`. -/
def exceptIsOk (r : Except CastleError Castle) : Bool :=
  match r with
  | Except.ok _ => true
  | Except.error _ => false

/-- A castle whose room map holds exactly one room, a throne. -/
def Castle.singleThrone (c : Castle) : Bool :=
  match c.rooms with
  | [(_, r)] => r.info.throne
  | _ => false

/-- The damage counter observed by each applied single discard of
`action_discard`'s loop: `true` when every `action_discard_one` that
succeeds along the list is applied to a castle with strictly positive
damage (an erroring discard stops the loop). -/
def discardChainOk : Castle → List Pos → Bool
  | _, [] => true
  | c, p :: ps =>
    match c.action_discard_one p with
    | Except.ok c' => decide (0 < c.damage) && discardChainOk c' ps
    | Except.error _ => true

/-- A single throne room at the origin, no damage. -/
def singleThroneCastle : Castle :=
  { rooms := [(((0 : Int), (0 : Int)), PlacedRoom.ofRoom throneRoom 0)], damage := 0 }

/-- The two-room castle with no damage. -/
def castleTwoRoomsZero : Castle :=
  { rooms := castleTwoRooms.rooms, damage := 0 }

/-- The castle `action_move castleTwoRoomsZero (0,1) (1,0) 270` produces:
the `crossRoom` is stored at `(1, 0)` with its old rotation `0`. -/
def movedCastle : Castle :=
  { rooms := [(((0 : Int), (0 : Int)), PlacedRoom.ofRoom throneRoom 0),
              (((1 : Int), (0 : Int)), PlacedRoom.ofRoom crossRoom 0)],
    damage := 0 }

/-- Throne, a north-`Cross` room south of it, and a `moonCrossRoom` south of
that, no damage: `action_swap` of `(0,1)` and `(0,2)` succeeds on it, yet
`possible_swaps` emits neither ordering of the pair. -/
def swapCastle : Castle :=
  { rooms := [(((0 : Int), (0 : Int)), PlacedRoom.ofRoom throneRoom 0),
              (((0 : Int), (1 : Int)), PlacedRoom.ofRoom crossRoom 0),
              (((0 : Int), (2 : Int)), PlacedRoom.ofRoom moonCrossRoom 0)],
    damage := 0 }

/-- Throne with a discardable room on each side, damage 1: a discard list of
two valid positions applies its second discard at damage 0. -/
def chainCastle : Castle :=
  { rooms := [(((0 : Int), (-1 : Int)), PlacedRoom.ofRoom moonRoom 0),
              (((0 : Int), (0 : Int)), PlacedRoom.ofRoom throneRoom 0),
              (((0 : Int), (1 : Int)), PlacedRoom.ofRoom crossRoom 0)],
    damage := 1 }

/-- Throne at the origin and a `moonRoom` two cells south (not adjacent),
no damage. -/
def swapWitnessCastle : Castle :=
  { rooms := [(((0 : Int), (0 : Int)), PlacedRoom.ofRoom throneRoom 0),
              (((0 : Int), (2 : Int)), PlacedRoom.ofRoom moonRoom 0)],
    damage := 0 }

/-! ### Helper lemmas -/

/-- A successful `action_discard_one` removes the discarded position and
applies the wrapping `u8` decrement to the damage counter. -/
theorem action_discard_one_ok {c : Castle} {pos : Pos} {c' : Castle}
    (h : c.action_discard_one pos = Except.ok c') :
    c'.rooms = RoomMap.remove c.rooms pos ∧ c'.damage = u8sub c.damage 1 := by
  simp only [Castle.action_discard_one] at h
  split_ifs at h <;>
    first
    | exact (Except.noConfusion h)
    | (injection h with h; subst h; exact ⟨rfl, rfl⟩)

/-- Removing a key leaves lookups at other keys unchanged. -/
theorem RoomMap.get_remove_ne (m : RoomMap) (p q : Pos) (h : q ≠ p) :
    RoomMap.get (RoomMap.remove m p) q = RoomMap.get m q := by
  induction m with
  | nil => rfl
  | cons e rest ih =>
    obtain ⟨a, r⟩ := e
    simp only [RoomMap.remove] at ih ⊢
    rw [List.filter_cons]
    by_cases he : a = p
    · rw [if_neg (by simp [he])]
      rw [ih]
      simp only [RoomMap.get]
      rw [if_neg (fun hq => h (hq.symm.trans he))]
    · rw [if_pos (by simp [he])]
      simp only [RoomMap.get]
      by_cases hq : a = q
      · rw [if_pos hq, if_pos hq]
      · rw [if_neg hq, if_neg hq]
        exact ih

/-- Every direction's neighbor differs from the center position. -/
theorem neighborPos_ne (pos : Pos) (i : Nat) : neighborPos pos i ≠ pos := by
  have h4 : i % 4 = 0 ∨ i % 4 = 1 ∨ i % 4 = 2 ∨ i % 4 = 3 := by omega
  rcases h4 with h | h | h | h <;> simp [neighborPos, h, Prod.ext_iff]

/-- The placement loop only reads the map at the listed neighbor positions. -/
theorem canPlaceLoop_congr {m1 m2 : RoomMap} {d1 d2 : Nat} (room : PlacedRoom) :
    ∀ (l : List (Nat × Pos)),
      (∀ e ∈ l, RoomMap.get m1 e.2 = RoomMap.get m2 e.2) →
      ∀ count,
        canPlaceLoop { rooms := m1, damage := d1 } room l count =
          canPlaceLoop { rooms := m2, damage := d2 } room l count := by
  intro l
  induction l with
  | nil => intro _ _; rfl
  | cons e rest ih =>
    intro h count
    have he : entryEval { rooms := m1, damage := d1 } room e =
        entryEval { rooms := m2, damage := d2 } room e := by
      simp only [entryEval]
      rw [h e (List.mem_cons_self e rest)]
    simp only [canPlaceLoop, he]
    cases entryEval { rooms := m2, damage := d2 } room e with
    | none => exact ih (fun e' h' => h e' (List.mem_cons_of_mem e h')) count
    | some b =>
      cases b with
      | false => rfl
      | true => exact ih (fun e' h' => h e' (List.mem_cons_of_mem e h')) (count + 1)

/-- Characterization of the placement loop: it returns `true` exactly when
no listed evaluation is `Some(false)` and the starting count is positive
or some listed evaluation is `Some(true)`. -/
theorem canPlaceLoop_iff (c : Castle) (room : PlacedRoom) :
    ∀ (l : List (Nat × Pos)) (count : Nat),
      canPlaceLoop c room l count = true ↔
        ((∀ e ∈ l, entryEval c room e ≠ some false) ∧
         (0 < count ∨ ∃ e ∈ l, entryEval c room e = some true)) := by
  intro l
  induction l with
  | nil => intro count; simp [canPlaceLoop]
  | cons e rest ih =>
    intro count
    simp only [canPlaceLoop]
    cases h : entryEval c room e with
    | none =>
      refine Iff.trans (ih count) ?_
      simp [h]
    | some b =>
      cases b with
      | false =>
        simp [h]
      | true =>
        refine Iff.trans (ih (count + 1)) ?_
        simp only [List.mem_cons, h]
        constructor
        · rintro ⟨h1, h2⟩
          refine ⟨fun e' he' => ?_, Or.inr ⟨e, Or.inl rfl, h⟩⟩
          rcases he' with rfl | he'
          · simp [h]
          · exact h1 e' he'
        · rintro ⟨h1, _⟩
          refine ⟨fun e' he' => h1 e' (Or.inr he'), Or.inl (Nat.succ_pos count)⟩

/-- With unique keys, looking up an entry's key returns that entry's room. -/
theorem RoomMap.get_of_mem_nodup {m : RoomMap} (hnd : (m.map Prod.fst).Nodup)
    {e : Pos × PlacedRoom} (he : e ∈ m) : RoomMap.get m e.1 = some e.2 := by
  induction m with
  | nil => cases he
  | cons hd tl ih =>
    obtain ⟨a, r⟩ := hd
    simp only [List.map_cons, List.nodup_cons] at hnd
    rcases List.mem_cons.mp he with rfl | he'
    · simp [RoomMap.get]
    · simp only [RoomMap.get]
      rw [if_neg]
      · exact ih hnd.2 he'
      · intro ha
        exact hnd.1 (ha ▸ List.mem_map.mpr ⟨e, he', rfl⟩)

/-- A key with an entry in the map has a successful lookup. -/
theorem RoomMap.get_isSome_of_entry {m : RoomMap} {e : Pos × PlacedRoom} (he : e ∈ m) :
    (RoomMap.get m e.1).isSome := by
  induction m with
  | nil => cases he
  | cons hd tl ih =>
    obtain ⟨a, r⟩ := hd
    simp only [RoomMap.get]
    by_cases ha : a = e.1
    · rw [if_pos ha]; rfl
    · rw [if_neg ha]
      rcases List.mem_cons.mp he with rfl | he'
      · exact absurd rfl ha
      · exact ih he'

/-- Removing an occupied position strictly shrinks the map. -/
theorem RoomMap.remove_length_lt {m : RoomMap} {p : Pos}
    (h : (RoomMap.get m p).isSome) : (RoomMap.remove m p).length < m.length := by
  induction m with
  | nil => simp [RoomMap.get] at h
  | cons hd tl ih =>
    obtain ⟨a, r⟩ := hd
    simp only [RoomMap.remove, List.filter_cons]
    by_cases ha : a = p
    · rw [if_neg (by simp [ha])]
      have := List.length_filter_le (fun e => decide (e.1 ≠ p)) tl
      simp only [List.length_cons]
      omega
    · rw [if_pos (by simp [ha])]
      simp only [RoomMap.get, if_neg ha] at h
      have := ih h
      simp only [RoomMap.remove] at this
      simp only [List.length_cons]
      omega

/-- Any position of `possible_discard` is occupied. -/
theorem get_isSome_of_mem_possible_discard {c : Castle} {p : Pos}
    (hp : p ∈ c.possible_discard) : (RoomMap.get c.rooms p).isSome := by
  unfold Castle.possible_discard at hp
  by_cases hl : c.is_lost
  · rw [if_pos hl] at hp; cases hp
  · rw [if_neg hl] at hp
    by_cases h1 : c.rooms.length = 1
    · rw [if_pos h1] at hp
      cases hm : c.rooms with
      | nil => rw [hm] at hp; cases hp
      | cons e tl =>
        obtain ⟨a, r⟩ := e
        rw [hm] at hp
        simp only [List.mem_singleton] at hp
        subst hp
        simp [RoomMap.get, hm]
    · rw [if_neg h1] at hp
      split_ifs at hp with ho
      · obtain ⟨e, he, hcond⟩ := List.mem_filterMap.mp hp
        split_ifs at hcond
        injection hcond with hcond
        exact hcond ▸ RoomMap.get_isSome_of_entry he
      · obtain ⟨e, he, hcond⟩ := List.mem_filterMap.mp hp
        split_ifs at hcond
        injection hcond with hcond
        exact hcond ▸ RoomMap.get_isSome_of_entry he

/-- With unique keys, a filterMap over the entries with an entry-side
throne test selects the same positions as a filter over the keys with a
lookup-side throne test. -/
theorem mem_tier_iff {c : Castle} (hnd : (c.rooms.map Prod.fst).Nodup)
    (P : Pos → Bool) (q : Pos) :
    (q ∈ c.rooms.filterMap
        (fun e => if P e.1 && !e.2.info.throne then some e.1 else none)) ↔
      q ∈ (RoomMap.keys c.rooms).filter (fun p => !c.throneAt p && P p) := by
  constructor
  · intro hq
    obtain ⟨e, he, hcond⟩ := List.mem_filterMap.mp hq
    split_ifs at hcond with hc
    injection hcond with hcond
    subst hcond
    have hget : RoomMap.get c.rooms e.1 = some e.2 := RoomMap.get_of_mem_nodup hnd he
    have hc' := Bool.and_eq_true_iff.mp hc
    refine List.mem_filter.mpr ⟨List.mem_map.mpr ⟨e, he, rfl⟩, ?_⟩
    simp only [Castle.throneAt, hget]
    rw [hc'.2, hc'.1]
    rfl
  · intro hq
    have hq' := List.mem_filter.mp hq
    obtain ⟨e, he, heq⟩ := List.mem_map.mp hq'.1
    subst heq
    have hget : RoomMap.get c.rooms e.1 = some e.2 := RoomMap.get_of_mem_nodup hnd he
    have hc := Bool.and_eq_true_iff.mp hq'.2
    have hthr : e.2.info.throne = false := by
      have := hc.1
      simp only [Castle.throneAt, hget, Bool.not_eq_true'] at this
      exact this
    refine List.mem_filterMap.mpr ⟨e, he, ?_⟩
    rw [if_pos (by rw [hc.2, hthr]; rfl)]

/-- On a castle that is not lost and keeps more than one room, every
position of `possible_discard` is accepted by `action_discard_one`, with
the expected result. -/
theorem possible_discard_ok {c : Castle} (hnd : (c.rooms.map Prod.fst).Nodup)
    (hlen : c.rooms.length ≠ 1) {p : Pos} (hp : p ∈ c.possible_discard) :
    c.action_discard_one p =
      Except.ok { rooms := RoomMap.remove c.rooms p, damage := u8sub c.damage 1 } := by
  have hsome := get_isSome_of_mem_possible_discard hp
  unfold Castle.possible_discard at hp
  by_cases hl : c.is_lost
  · rw [if_pos hl] at hp; cases hp
  rw [if_neg hl, if_neg hlen] at hp
  by_cases ho : 0 < (c.rooms.filterMap
      (fun e => if c.outerAt e.1 && !e.2.info.throne then some e.1 else none)).length
  · rw [if_pos ho] at hp
    -- tier 3: p is a non-throne outer position
    have hkey : p ∈ (RoomMap.keys c.rooms).filter (fun q => !c.throneAt q && c.outerAt q) :=
      (mem_tier_iff hnd c.outerAt p).mp hp
    have hcond := Bool.and_eq_true_iff.mp (List.mem_filter.mp hkey).2
    have hthrAt : c.throneAt p = false := by simpa using hcond.1
    have houterp : c.outerAt p = true := hcond.2
    unfold Castle.action_discard_one
    split_ifs with h1 h2 h3 h4 h5
    · rw [Option.isNone_iff_eq_none] at h1
      rw [h1] at hsome
      exact Bool.noConfusion hsome
    · have hth := (Bool.and_eq_true_iff.mp h2).1
      rw [hthrAt] at hth
      exact Bool.noConfusion hth
    · rfl
    · rfl
    · exact h3 (List.length_pos_of_mem hkey)
    · exact h3 (List.length_pos_of_mem hkey)
  · rw [if_neg ho] at hp
    -- tier 4: p is a non-throne nearly-outer position, no outer tier exists
    have hkey : p ∈ (RoomMap.keys c.rooms).filter
        (fun q => !c.throneAt q && decide (c.nconnAt q ≤ 2)) :=
      (mem_tier_iff hnd (fun q => decide (c.nconnAt q ≤ 2)) p).mp hp
    have hcond := Bool.and_eq_true_iff.mp (List.mem_filter.mp hkey).2
    have hthrAt : c.throneAt p = false := by simpa using hcond.1
    have hnearp : c.nconnAt p ≤ 2 := by
      have := hcond.2
      simpa using this
    have hoKeys : ¬ 0 < ((RoomMap.keys c.rooms).filter
        (fun q => !c.throneAt q && c.outerAt q)).length := by
      intro hpos
      rcases List.exists_mem_of_length_pos hpos with ⟨q, hq⟩
      exact ho (List.length_pos_of_mem ((mem_tier_iff hnd c.outerAt q).mpr hq))
    unfold Castle.action_discard_one
    split_ifs with h1 h2 h3
    · rw [Option.isNone_iff_eq_none] at h1
      rw [h1] at hsome
      exact Bool.noConfusion hsome
    · have hth := (Bool.and_eq_true_iff.mp h2).1
      rw [hthrAt] at hth
      exact Bool.noConfusion hth
    · rfl
    · exact h3 (List.length_pos_of_mem hkey)

/-- If every listed discard succeeds and recursing on its result yields no
sequences, the whole expansion yields no sequences. -/
theorem expandWith_all_nil {rec : Castle → Option (List (List Pos))} {c : Castle}
    {l : List Pos}
    (h : ∀ p ∈ l, ∃ c', c.action_discard_one p = Except.ok c' ∧ rec c' = some []) :
    expandWith rec c l = some [] := by
  induction l with
  | nil => rfl
  | cons p ps ih =>
    obtain ⟨c', hok, hrec⟩ := h p (List.mem_cons_self p ps)
    simp [expandWith, hok, hrec, ih (fun q hq => h q (List.mem_cons_of_mem p hq))]

/-- Every sequence produced by one expansion layer has length `n` when the
recursion produces sequences of length `n - 1` under every applied
discard. -/
theorem expandWith_lengths {rec : Castle → Option (List (List Pos))} {c : Castle}
    (n : Nat) :
    ∀ (l : List Pos) (seqs : List (List Pos)),
      expandWith rec c l = some seqs →
      (∀ p ∈ l, ∀ c', c.action_discard_one p = Except.ok c' →
        ∀ rs, rec c' = some rs → ∀ s ∈ rs, s.length + 1 = n) →
      ∀ s ∈ seqs, s.length = n := by
  intro l
  induction l with
  | nil =>
    intro seqs he H s hs
    simp only [expandWith] at he
    injection he with he
    subst he
    cases hs
  | cons p ps ih =>
    intro seqs he H s hs
    simp only [expandWith] at he
    split at he
    · exact Option.noConfusion he
    next c' hok =>
      split at he
      next rs rest hrs hrest =>
        injection he with he
        subst he
        rcases List.mem_append.mp hs with hmem | hmem
        · obtain ⟨s', hs', rfl⟩ := List.mem_map.mp hmem
          have := H p (List.mem_cons_self p ps) c' hok rs hrs s' hs'
          simpa using this
        · exact ih rest hrest (fun q hq => H q (List.mem_cons_of_mem p hq)) s hmem
      next hns =>
        exact Option.noConfusion he

/-- Every sequence produced by the bounded discard search on a castle with
in-range damage has length exactly the castle's damage. -/
theorem goDiscards_lengths :
    ∀ (fuel : Nat) (c : Castle) (seqs : List (List Pos)),
      goDiscards fuel c = some seqs → c.damage < 256 →
      ∀ s ∈ seqs, s.length = c.damage := by
  intro fuel
  induction fuel with
  | zero =>
    intro c seqs he
    exact Option.noConfusion he
  | succ fuel ih =>
    intro c seqs he hlt s hs
    simp only [goDiscards] at he
    by_cases hd : c.damage = 0
    · rw [if_pos hd] at he
      injection he with he
      subst he
      rcases List.mem_singleton.mp hs with rfl
      simp [hd]
    · rw [if_neg hd] at he
      refine expandWith_lengths c.damage _ _ he ?_ s hs
      intro p hp c' hok rs hrs s' hs'
      have hd' := (action_discard_one_ok hok).2
      have hc' : c'.damage = c.damage - 1 := by
        rw [hd']
        simp only [u8sub]
        omega
      have := ih c' rs hrs (by omega) s' hs'
      omega

/-! ### C6: can_place_room characterization -/

/-- C6: `can_place_room` returns `true` exactly when, over the four
directions of `pos`, no `connect` evaluation against an occupied
neighbor's opposite connector yields `Some(false)` and at least one yields
`Some(true)`; and the result never depends on whether `pos` itself is
occupied (removing any room at `pos` does not change it). -/
theorem can_place_room_spec :
    ∀ (c : Castle) (room : PlacedRoom) (pos : Pos),
      (c.can_place_room room pos = true ↔
        ((dirEval c room pos 0 ≠ some false ∧ dirEval c room pos 1 ≠ some false ∧
          dirEval c room pos 2 ≠ some false ∧ dirEval c room pos 3 ≠ some false) ∧
         (dirEval c room pos 0 = some true ∨ dirEval c room pos 1 = some true ∨
          dirEval c room pos 2 = some true ∨ dirEval c room pos 3 = some true))) ∧
      Castle.can_place_room { rooms := RoomMap.remove c.rooms pos, damage := c.damage }
          room pos = c.can_place_room room pos := by
  intro c room pos
  obtain ⟨m, d⟩ := c
  have henum : (connecting pos).enum =
      [(0, neighborPos pos 0), (1, neighborPos pos 1),
       (2, neighborPos pos 2), (3, neighborPos pos 3)] := rfl
  constructor
  · have hloop := canPlaceLoop_iff { rooms := m, damage := d } room ((connecting pos).enum) 0
    rw [henum] at hloop
    refine Iff.trans hloop ?_
    have d0 : entryEval { rooms := m, damage := d } room (0, neighborPos pos 0) =
        dirEval { rooms := m, damage := d } room pos 0 := rfl
    have d1 : entryEval { rooms := m, damage := d } room (1, neighborPos pos 1) =
        dirEval { rooms := m, damage := d } room pos 1 := rfl
    have d2 : entryEval { rooms := m, damage := d } room (2, neighborPos pos 2) =
        dirEval { rooms := m, damage := d } room pos 2 := rfl
    have d3 : entryEval { rooms := m, damage := d } room (3, neighborPos pos 3) =
        dirEval { rooms := m, damage := d } room pos 3 := rfl
    simp [d0, d1, d2, d3]
  · exact canPlaceLoop_congr room ((connecting pos).enum)
      (fun e he => by
        rw [henum] at he
        simp only [List.mem_cons, List.not_mem_nil, or_false] at he
        rcases he with rfl | rfl | rfl | rfl
        · exact RoomMap.get_remove_ne m pos (neighborPos pos 0) (neighborPos_ne pos 0)
        · exact RoomMap.get_remove_ne m pos (neighborPos pos 1) (neighborPos_ne pos 1)
        · exact RoomMap.get_remove_ne m pos (neighborPos pos 2) (neighborPos_ne pos 2)
        · exact RoomMap.get_remove_ne m pos (neighborPos pos 3) (neighborPos_ne pos 3)) 0

/-! ### C8: rotation algebra -/

/-- C8: for every room template, the rotation-adjusted connectors at
rotation 0 (and at a full 360-degree turn) are the canonical 4-tuple
itself, and four successive 90-degree cyclic shifts return any 4-tuple of
connectors to itself; the rotation computation is a pure function of its
arguments. -/
theorem rotation_zero_and_full_cycle :
    ∀ (r : Room) (cs : Conns),
      Room.get_rotated_connections r 0 = r.connections ∧
      Room.get_rotated_connections r 360 = r.connections ∧
      Conns.shift (Conns.shift (Conns.shift (Conns.shift cs 1) 1) 1) 1 = cs := by
  intro r cs
  refine ⟨rfl, rfl, ?_⟩
  cases cs
  rfl

/-! ### C3: link on mismatched typed connectors -/

/-- C3 counterexample: linking a `Diamond` with a `Cross` connector — two
distinct non-`None`, non-`Wild` types — is not an error: it silently
succeeds with `Ok(Connection::None)` through the final catch-all arm. -/
theorem link_diamond_cross_silently_succeeds :
    Connection.link (Connection.Diamond false) (Connection.Cross false) =
      Except.ok Connection.None := rfl

/-- C3 amended: for every pair of connectors of distinct non-`None`,
non-`Wild` types, `link` returns the successful value
`Ok(Connection::None)` — a silently successful `None` result, not a
link-time error (only a `None` paired with a non-`None` errs). -/
theorem link_mismatched_typed (a b : Connection)
    (ha : a.isTyped = true) (hb : b.isTyped = true) (hne : a.tag ≠ b.tag) :
    Connection.link a b = Except.ok Connection.None := by
  cases a <;> cases b <;>
    first
    | rfl
    | simp_all [Connection.isTyped, Connection.tag]

/-- C3 witness: the amended theorem applied to `Diamond` and `Moon`. -/
theorem link_mismatched_typed_witness :
    Connection.link (Connection.Diamond false) (Connection.Moon true) =
      Except.ok Connection.None :=
  link_mismatched_typed (Connection.Diamond false) (Connection.Moon true) rfl rfl
    (by decide)

/-! ### C1: action_discard never succeeds -/

/-- C1 (code bug): on the two-room castle with damage 1, discarding the
single outer room `(0, 1)` reduces damage to exactly 0, yet the whole
`Discard` action fails with `MustDiscard`, because the final check of
`action_discard` reads `self.damage` — the starting castle's damage, which
the `NoDamage` guard has already forced positive — instead of the damage
of the castle produced by the loop. The success branch is unreachable. -/
theorem discard_full_list_rejected :
    Castle.action_discard castleTwoRooms [((0 : Int), (1 : Int))] =
        Except.error CastleError.MustDiscard ∧
      Castle.action_discard_one castleTwoRooms ((0 : Int), (1 : Int)) =
        Except.ok singleThroneCastle :=
  ⟨rfl, rfl⟩

/-! ### C2: action_move drops the new rotation -/

/-- C2 (code bug): moving the outer room `(0, 1)` to `(1, 0)` with rotation
270 succeeds — the placement check is made with the room rotated by 270 —
but the room is inserted with its old rotation 0, not 270; the resulting
castle is corrupt: its own `get_links` hits the incorrectly-placed-room
panic (modelled by `none`). -/
theorem move_keeps_old_rotation :
    Castle.action_move castleTwoRoomsZero ((0 : Int), (1 : Int)) ((1 : Int), (0 : Int)) 270 =
        Except.ok movedCastle ∧
      RoomMap.get movedCastle.rooms ((1 : Int), (0 : Int)) =
        some { info := crossRoom, rotation := 0 } ∧
      Castle.get_links movedCastle = none :=
  ⟨rfl, rfl, rfl⟩

/-! ### C7: action_damage -/

/-- C7: whenever `get_links` is defined (its panic on an incorrectly placed
room being the only failure mode), `action_damage` returns a castle — it
never returns an error — and, in the `u8` range where no wrap occurs, the
per-type excess of each amount over the corresponding link count (floored
at 0 by the `Nat` subtraction) is added to the damage counter, the
accumulated damage is then reduced by the wild-link count exactly when it
strictly exceeds the wild-link count and is left unchanged otherwise, and
the final wipe step applies when that damage reaches the room count. -/
theorem action_damage_spec (c : Castle) (dd cd md dl cl ml wl : Nat)
    (hl : c.get_links = some (dl, cl, ml, wl))
    (hov : c.damage + (dd - dl) + (cd - cl) + (md - ml) < 256) :
    c.action_damage dd cd md =
      (let base := c.damage + (dd - dl) + (cd - cl) + (md - ml)
       let red := if wl < base then base - wl else base
       if c.rooms.length ≤ red then some { rooms := [], damage := red - c.rooms.length }
       else some { rooms := c.rooms, damage := red }) := by
  unfold Castle.action_damage
  rw [hl]
  have hmap : ∀ (f : Nat × Nat × Nat × Nat → Castle),
      Option.map f (some (dl, cl, ml, wl)) = some (f (dl, cl, ml, wl)) := fun _ => rfl
  rw [hmap]
  dsimp only
  simp only [u8add, u8sub]
  rw [(by split_ifs <;> omega :
    (if dl < dd then (c.damage + (dd - dl)) % 256 else c.damage) = c.damage + (dd - dl))]
  rw [(by split_ifs <;> omega :
    (if cl < cd then (c.damage + (dd - dl) + (cd - cl)) % 256 else c.damage + (dd - dl)) =
      c.damage + (dd - dl) + (cd - cl))]
  rw [(by split_ifs <;> omega :
    (if ml < md then (c.damage + (dd - dl) + (cd - cl) + (md - ml)) % 256
     else c.damage + (dd - dl) + (cd - cl)) =
      c.damage + (dd - dl) + (cd - cl) + (md - ml))]
  rw [(by split_ifs <;> omega :
    (if wl < c.damage + (dd - dl) + (cd - cl) + (md - ml) then
      (c.damage + (dd - dl) + (cd - cl) + (md - ml) + (256 - wl % 256)) % 256
     else c.damage + (dd - dl) + (cd - cl) + (md - ml)) =
      if wl < c.damage + (dd - dl) + (cd - cl) + (md - ml) then
        c.damage + (dd - dl) + (cd - cl) + (md - ml) - wl
      else c.damage + (dd - dl) + (cd - cl) + (md - ml))]
  have hRle : (if wl < c.damage + (dd - dl) + (cd - cl) + (md - ml) then
      c.damage + (dd - dl) + (cd - cl) + (md - ml) - wl
    else c.damage + (dd - dl) + (cd - cl) + (md - ml)) ≤
      c.damage + (dd - dl) + (cd - cl) + (md - ml) := by
    split_ifs <;> omega
  generalize hR : (if wl < c.damage + (dd - dl) + (cd - cl) + (md - ml) then
      c.damage + (dd - dl) + (cd - cl) + (md - ml) - wl
    else c.damage + (dd - dl) + (cd - cl) + (md - ml)) = R at hRle ⊢
  by_cases hw : c.rooms.length ≤ R
  · rw [if_pos hw, if_pos hw]
    simp only [Option.some.injEq, Castle.mk.injEq, true_and]
    omega
  · rw [if_neg hw, if_neg hw]

/-- C7 witness: one damage point on the bare throne castle (no links) wipes
the single room and leaves damage 0. -/
theorem action_damage_spec_witness :
    Castle.action_damage singleThroneCastle 1 0 0 = some { rooms := [], damage := 0 } := by
  have h := action_damage_spec singleThroneCastle 1 0 0 0 0 0 0 rfl (by decide)
  simpa using h

/-! ### C9: the u8 decrement of action_discard_one can underflow -/

/-- C9 counterexample: on the three-room castle with damage 1, the discard
list `[(0,1), (0,-1)]` applies its second successful single discard to a
castle whose damage is already 0 — the `NoDamage` guard of
`action_discard` alone does not keep the damage positive across the loop —
and the wrapping `u8` decrement produces damage 255. -/
theorem discard_chain_underflows :
    0 < chainCastle.damage ∧
      discardChainOk chainCastle [((0 : Int), (1 : Int)), ((0 : Int), (-1 : Int))] = false ∧
      (Castle.action_discard_one chainCastle ((0 : Int), (1 : Int))).bind
          (fun c => c.action_discard_one ((0 : Int), (-1 : Int))) =
        Except.ok { rooms := [(((0 : Int), (0 : Int)), PlacedRoom.ofRoom throneRoom 0)],
                    damage := 255 } :=
  ⟨Nat.zero_lt_one, rfl, rfl⟩

/-- C9 amended: the decrement cannot underflow as long as the discard list
is no longer than the starting damage: every successful single discard of
the list is then applied to a castle with strictly positive damage. -/
theorem discard_chain_safe (c : Castle) (poses : List Pos)
    (hlen : poses.length ≤ c.damage) (hdmg : c.damage < 256) :
    discardChainOk c poses = true := by
  induction poses generalizing c with
  | nil => rfl
  | cons p ps ih =>
    simp only [discardChainOk]
    cases h : c.action_discard_one p with
    | error e => rfl
    | ok c' =>
      have hd := (action_discard_one_ok h).2
      have hpos : 0 < c.damage := by
        have := hlen
        simp only [List.length_cons] at this
        omega
      have hdam : c'.damage = c.damage - 1 := by
        rw [hd]
        simp only [u8sub]
        omega
      have hrec : discardChainOk c' ps = true := by
        apply ih
        · rw [hdam]
          have := hlen
          simp only [List.length_cons] at this
          omega
        · rw [hdam]
          omega
      simp [hpos, hrec]

/-- C9 witness for the amended theorem: a one-discard list on the
three-room castle with damage 1. -/
theorem discard_chain_safe_witness :
    discardChainOk chainCastle [((0 : Int), (1 : Int))] = true :=
  discard_chain_safe chainCastle [((0 : Int), (1 : Int))] (by decide) (by decide)

/-- Inserting at a key leaves lookups at other keys unchanged. -/
theorem RoomMap.get_insert_ne (m : RoomMap) (p q : Pos) (r : PlacedRoom) (h : q ≠ p) :
    RoomMap.get (RoomMap.insert m p r) q = RoomMap.get m q := by
  induction m with
  | nil =>
    simp only [RoomMap.insert, RoomMap.get]
    rw [if_neg (fun hq => h hq.symm)]
  | cons e rest ih =>
    obtain ⟨a, s⟩ := e
    simp only [RoomMap.insert]
    by_cases hpa : p = a
    · simp only [if_pos hpa, RoomMap.get]
      rw [if_neg (fun hq => h hq.symm), if_neg (fun hq => h (hq.symm.trans hpa.symm))]
    · rw [if_neg hpa]
      by_cases hlt : posLt p a
      · rw [if_pos hlt]
        simp only [RoomMap.get]
        rw [if_neg (fun hq => h hq.symm)]
      · rw [if_neg hlt]
        simp only [RoomMap.get]
        by_cases haq : a = q
        · rw [if_pos haq, if_pos haq]
        · rw [if_neg haq, if_neg haq]
          exact ih

/-- A successful lookup comes from an entry of the map. -/
theorem RoomMap.mem_of_get {m : RoomMap} {p : Pos} {r : PlacedRoom}
    (h : RoomMap.get m p = some r) : (p, r) ∈ m := by
  induction m with
  | nil => exact Option.noConfusion h
  | cons e rest ih =>
    obtain ⟨a, s⟩ := e
    simp only [RoomMap.get] at h
    by_cases ha : a = p
    · rw [if_pos ha] at h
      injection h with h
      subst ha h
      exact List.mem_cons_self _ _
    · rw [if_neg ha] at h
      exact List.mem_cons_of_mem _ (ih h)

/-- `can_place_room` only reads the map at the four neighbors of `pos`. -/
theorem canPlace_eq_of_neighbors {m1 m2 : RoomMap} (d1 d2 : Nat)
    (room : PlacedRoom) (pos : Pos)
    (h : ∀ i, i < 4 → RoomMap.get m1 (neighborPos pos i) = RoomMap.get m2 (neighborPos pos i)) :
    Castle.can_place_room { rooms := m1, damage := d1 } room pos =
      Castle.can_place_room { rooms := m2, damage := d2 } room pos := by
  have henum : (connecting pos).enum =
      [(0, neighborPos pos 0), (1, neighborPos pos 1),
       (2, neighborPos pos 2), (3, neighborPos pos 3)] := rfl
  exact canPlaceLoop_congr room ((connecting pos).enum)
    (fun e he => by
      rw [henum] at he
      simp only [List.mem_cons, List.not_mem_nil, or_false] at he
      rcases he with rfl | rfl | rfl | rfl
      · exact h 0 (by omega)
      · exact h 1 (by omega)
      · exact h 2 (by omega)
      · exact h 3 (by omega)) 0

/-- Every direction's neighbor belongs to `connecting`. -/
theorem neighborPos_mem_connecting (pos : Pos) (i : Nat) (hi : i < 4) :
    neighborPos pos i ∈ connecting pos := by
  have h4 : i = 0 ∨ i = 1 ∨ i = 2 ∨ i = 3 := by omega
  rcases h4 with rfl | rfl | rfl | rfl <;> simp [connecting]

/-! ### C4: all_possible_discards at damage 0 -/

/-- C4 counterexample: on the castle holding exactly one room, a throne,
with damage 0, `all_possible_discards` does not return the empty list: the
sole eligible position (tier 2 of the eligibility rule) fails
`action_discard_one`, and the `.unwrap()` on that seeding discard panics
(modelled by `none`). -/
theorem all_possible_discards_single_throne_panics :
    Castle.all_possible_discards singleThroneCastle = none ∧
      singleThroneCastle.damage = 0 :=
  ⟨rfl, rfl⟩

/-- C4 amended: on every castle with damage 0 — with unique keys, at most
256 rooms, and not in the one-room-throne state on which the seeding
`.unwrap()` panics — `all_possible_discards` returns the empty list of
discard sequences. -/
theorem all_possible_discards_empty (c : Castle) (hd : c.damage = 0)
    (hnd : (c.rooms.map Prod.fst).Nodup) (hlen : c.rooms.length ≤ 256)
    (hst : c.singleThrone = false) :
    c.all_possible_discards = some [] := by
  unfold Castle.all_possible_discards
  apply expandWith_all_nil
  intro p hp
  by_cases hl : c.is_lost = true
  · exfalso
    unfold Castle.possible_discard at hp
    rw [if_pos hl] at hp
    cases hp
  have hpos : 0 < c.rooms.length := by
    rcases Nat.eq_zero_or_pos c.rooms.length with h0 | h
    · exact absurd (by simp [Castle.is_lost, h0]) hl
    · exact h
  have hlen1 : c.rooms.length ≠ 1 := by
    intro h1
    obtain ⟨e, he⟩ := List.length_eq_one.mp h1
    obtain ⟨a, r⟩ := e
    have hthr : r.info.throne = true := by
      cases hb : r.info.throne with
      | true => rfl
      | false => exact absurd (by simp [Castle.is_lost, he, hb]) hl
    have hsT : c.singleThrone = true := by simp [Castle.singleThrone, he, hthr]
    rw [hst] at hsT
    exact Bool.noConfusion hsT
  refine ⟨_, possible_discard_ok hnd hlen1 hp, ?_⟩
  have hdam : u8sub c.damage 1 = 255 := by rw [hd]; rfl
  have hsm := get_isSome_of_mem_possible_discard hp
  have hlt := RoomMap.remove_length_lt hsm
  obtain ⟨k, hk⟩ : ∃ k, c.rooms.length = k + 1 := ⟨c.rooms.length - 1, by omega⟩
  rw [hk]
  simp only [goDiscards]
  rw [if_neg (by simp [hdam])]
  have hlost : Castle.is_lost
      { rooms := RoomMap.remove c.rooms p, damage := u8sub c.damage 1 } = true := by
    have hb : (RoomMap.remove c.rooms p).length ≤ 255 := by omega
    simp only [Castle.is_lost, hdam]
    rw [decide_eq_true hb]
    rfl
  rw [show Castle.possible_discard
        { rooms := RoomMap.remove c.rooms p, damage := u8sub c.damage 1 } = [] from by
      unfold Castle.possible_discard
      rw [if_pos hlost]]
  rfl

/-- C4 witness for the amended theorem: the two-room castle with damage 0
has no discard sequences. -/
theorem all_possible_discards_empty_witness :
    Castle.all_possible_discards castleTwoRoomsZero = some [] :=
  all_possible_discards_empty castleTwoRoomsZero rfl (by decide) (by decide) rfl

/-! ### C5: swap enumeration versus the Swap action -/

/-- C5 counterexample: on `swapCastle` (damage 0) with the distinct
occupied positions `(0,1)` and `(0,2)`, applying `Swap((0,1),(0,2))`
succeeds, yet `possible_actions` emits no such `Swap`: `possible_swaps`
validates both rooms against the unmodified castle — where the two
adjacent rooms still face each other — while `action_swap` validates
against the castle with the other swap leg already performed. -/
theorem swap_enumeration_counterexample :
    (Castle.apply swapCastle
        (Action.Swap ((0 : Int), (1 : Int)) ((0 : Int), (2 : Int)))).map exceptIsOk =
        some true ∧
      (Castle.possible_actions swapCastle []).map
          (fun l => decide (Action.Swap ((0 : Int), (1 : Int)) ((0 : Int), (2 : Int)) ∈ l)) =
        some false := by
  constructor
  · rfl
  · rfl

/-- C5 amended: the agreement does hold for swaps of positions that are not
grid-adjacent: for every castle with damage 0, unique keys, and distinct
occupied positions `p1`, `p2` neither of which neighbors the other,
`Swap(p1, p2)` is emitted by `possible_actions` if and only if
`action_swap p1 p2` succeeds. (For adjacent positions the two checks can
disagree, as the counterexample shows.) -/
theorem swap_enumeration_agrees_nonadjacent (c : Castle) (p1 p2 : Pos) (shop : List Room)
    (hd : c.damage = 0)
    (hnd : (c.rooms.map Prod.fst).Nodup)
    (h1 : (RoomMap.get c.rooms p1).isSome = true)
    (h2 : (RoomMap.get c.rooms p2).isSome = true)
    (hne : p1 ≠ p2)
    (ha1 : p1 ∉ connecting p2)
    (ha2 : p2 ∉ connecting p1) :
    (Action.Swap p1 p2 ∈ (c.possible_actions shop).getD []) ↔
      exceptIsOk (c.action_swap p1 p2) = true := by
  obtain ⟨m, dmg⟩ := c
  change dmg = 0 at hd
  subst hd
  simp only at hnd h1 h2
  obtain ⟨room1, hr1⟩ := Option.isSome_iff_exists.mp h1
  obtain ⟨room2, hr2⟩ := Option.isSome_iff_exists.mp h2
  -- the hypothetical castles of action_swap agree with the original castle
  -- on every neighbor of p2 (first check) and of p1 (second check)
  have hnb2 : ∀ i, i < 4 →
      RoomMap.get (RoomMap.insert (RoomMap.remove (RoomMap.remove m p1) p2) p1 room2)
        (neighborPos p2 i) = RoomMap.get m (neighborPos p2 i) := by
    intro i hi
    have hq1 : neighborPos p2 i ≠ p1 :=
      fun hq => ha1 (hq ▸ neighborPos_mem_connecting p2 i hi)
    have hq2 : neighborPos p2 i ≠ p2 := neighborPos_ne p2 i
    rw [RoomMap.get_insert_ne _ _ _ _ hq1, RoomMap.get_remove_ne _ _ _ hq2,
        RoomMap.get_remove_ne _ _ _ hq1]
  have hcp1 := canPlace_eq_of_neighbors 0 0 room1 p2 hnb2
  have hnb1 : ∀ i, i < 4 →
      RoomMap.get (RoomMap.insert (RoomMap.remove
          (RoomMap.insert (RoomMap.remove (RoomMap.remove m p1) p2) p1 room2) p1) p2 room1)
        (neighborPos p1 i) = RoomMap.get m (neighborPos p1 i) := by
    intro i hi
    have hq2 : neighborPos p1 i ≠ p2 :=
      fun hq => ha2 (hq ▸ neighborPos_mem_connecting p1 i hi)
    have hq1 : neighborPos p1 i ≠ p1 := neighborPos_ne p1 i
    rw [RoomMap.get_insert_ne _ _ _ _ hq2, RoomMap.get_remove_ne _ _ _ hq1,
        RoomMap.get_insert_ne _ _ _ _ hq1, RoomMap.get_remove_ne _ _ _ hq2,
        RoomMap.get_remove_ne _ _ _ hq1]
  have hcp2 := canPlace_eq_of_neighbors 0 0 room2 p1 hnb1
  -- evaluate action_swap down to the two placement checks on the original
  have hswapOk : exceptIsOk (Castle.action_swap { rooms := m, damage := 0 } p1 p2) =
      (Castle.can_place_room { rooms := m, damage := 0 } room1 p2 &&
        Castle.can_place_room { rooms := m, damage := 0 } room2 p1) := by
    unfold Castle.action_swap
    dsimp only
    rw [if_neg (lt_irrefl 0), if_neg hne]
    simp only [hr1, hr2]
    rw [hcp1, hcp2]
    cases hb1 : Castle.can_place_room { rooms := m, damage := 0 } room1 p2 <;>
      cases hb2 : Castle.can_place_room { rooms := m, damage := 0 } room2 p1 <;>
      simp [exceptIsOk]
  -- the emitted Swap actions are exactly the all_possible_swaps pairs
  have hmem1 : (Action.Swap p1 p2 ∈
        (Castle.possible_actions { rooms := m, damage := 0 } shop).getD []) ↔
      (p1, p2) ∈ Castle.all_possible_swaps { rooms := m, damage := 0 } := by
    unfold Castle.possible_actions
    dsimp only
    rw [if_neg (lt_irrefl 0), Option.getD_some]
    simp only [List.mem_append, List.mem_map]
    constructor
    · rintro ((⟨e, he, heq⟩ | ⟨e, he, heq⟩) | ⟨e, he, heq⟩)
      · exact Action.noConfusion heq
      · exact Action.noConfusion heq
      · injection heq with hq1 hq2
        rwa [show e = (p1, p2) from Prod.ext hq1 hq2] at he
    · intro hm
      exact Or.inr ⟨(p1, p2), hm, rfl⟩
  have hmem2 : (p1, p2) ∈ Castle.all_possible_swaps { rooms := m, damage := 0 } ↔
      p2 ∈ Castle.possible_swaps { rooms := m, damage := 0 } p1 := by
    unfold Castle.all_possible_swaps
    rw [List.mem_flatMap]
    constructor
    · rintro ⟨q1, hq1, hq⟩
      obtain ⟨q2, hq2, heq⟩ := List.mem_map.mp hq
      injection heq with ha hb
      subst ha hb
      exact hq2
    · intro hm
      refine ⟨p1, ?_, List.mem_map.mpr ⟨p2, hm, rfl⟩⟩
      exact List.mem_map.mpr ⟨(p1, room1), RoomMap.mem_of_get hr1, rfl⟩
  have hmem3 : p2 ∈ Castle.possible_swaps { rooms := m, damage := 0 } p1 ↔
      (Castle.can_place_room { rooms := m, damage := 0 } room1 p2 = true ∧
        Castle.can_place_room { rooms := m, damage := 0 } room2 p1 = true) := by
    unfold Castle.possible_swaps
    dsimp only
    simp only [hr1]
    rw [List.mem_filterMap]
    constructor
    · rintro ⟨e, he, hcond⟩
      split_ifs at hcond with hc
      · injection hcond with hcond
        subst hcond
        have hge : RoomMap.get m e.1 = some e.2 := RoomMap.get_of_mem_nodup hnd he
        rw [hr2] at hge
        injection hge with hge
        subst hge
        have hc' := Bool.and_eq_true_iff.mp hc
        exact ⟨(Bool.and_eq_true_iff.mp hc'.1).2, hc'.2⟩
    · rintro ⟨hc1, hc2⟩
      refine ⟨(p2, room2), RoomMap.mem_of_get hr2, ?_⟩
      rw [if_pos (by simp [hne, hc1, hc2])]
  rw [hswapOk, Bool.and_eq_true_iff]
  exact hmem1.trans (hmem2.trans hmem3)

/-- C5 witness for the amended theorem: the throne at the origin and the
room two cells south of it are occupied, distinct and not adjacent. -/
theorem swap_enumeration_witness :
    (Action.Swap ((0 : Int), (0 : Int)) ((0 : Int), (2 : Int)) ∈
        (Castle.possible_actions swapWitnessCastle []).getD []) ↔
      exceptIsOk (Castle.action_swap swapWitnessCastle
        ((0 : Int), (0 : Int)) ((0 : Int), (2 : Int))) = true :=
  swap_enumeration_agrees_nonadjacent swapWitnessCastle
    ((0 : Int), (0 : Int)) ((0 : Int), (2 : Int)) [] rfl (by decide) (by decide)
    (by decide) (by decide) (by decide) (by decide)

/-! ### C10: every discard sequence has length damage -/

/-- C10: on every castle with damage `d`, `0 < d < 256`, every discard
sequence returned by `all_possible_discards` has length exactly `d`: each
applied single discard removes one room and decrements the damage by one,
and a sequence is recorded exactly when the remaining damage is 0. -/
theorem all_discards_lengths (c : Castle) (h0 : 0 < c.damage) (h256 : c.damage < 256)
    (seqs : List (List Pos)) (hs : c.all_possible_discards = some seqs) :
    ∀ s ∈ seqs, s.length = c.damage := by
  unfold Castle.all_possible_discards at hs
  refine expandWith_lengths c.damage _ _ hs ?_
  intro p hp c' hok rs hrs s' hs'
  have hd' := (action_discard_one_ok hok).2
  have hc' : c'.damage = c.damage - 1 := by
    rw [hd']
    simp only [u8sub]
    omega
  have := goDiscards_lengths c.rooms.length c' rs hrs (by omega) s' hs'
  omega

/-- C10 witness: the two-room castle with damage 1 returns exactly the
one-sequence list `[[(0, 1)]]`, whose sequence has length 1. -/
theorem all_discards_lengths_witness :
    List.length [((0 : Int), (1 : Int))] = castleTwoRooms.damage :=
  all_discards_lengths castleTwoRooms (by decide) (by decide)
    [[((0 : Int), (1 : Int))]] rfl [((0 : Int), (1 : Int))] (by simp)

end Disastle
